import Mathlib

/-!
Verification of `extract_vst_chunk_data.py` against its specification.

The Python source is shallowly embedded: parsed JSON documents become the
inductive type `JSON`, the recursive tree search `find_chunk_data_in_json`
becomes a mutually recursive Lean function returning `Except` (a Python
`AttributeError` raised on a non-string `plugin_path` becomes `.error`),
and the driver's clipboard policy, duration formatter, log-retention loop
and file-selection loop become explicit functions over their inputs.
-/

namespace Extract

/-- A parsed JSON value (what `json.load` hands to the script): null, booleans,
numbers, strings, arrays, and objects with string keys in insertion order.
Numbers are modelled as integers; no claim depends on fractional numerals. -/
inductive JSON where
  | null
  | bool (b : Bool)
  | num (n : Int)
  | str (s : String)
  | arr (elems : List JSON)
  | obj (fields : List (String × JSON))

/-- Python `s.endswith(suffix)`: the suffix's characters are a suffix of `s`'s. -/
def pyEndsWith (s suffix : String) : Bool :=
  suffix.data.isSuffixOf s.data

/-- Python `dict.get(key)`: first binding of `key` in the (unique-keyed) field
list, `none` when absent. -/
def lookupField : List (String × JSON) → String → Option JSON
  | [], _ => none
  | (k, v) :: rest, key => if k = key then some v else lookupField rest key

/-- Python `x is None` on a parsed JSON value. -/
def JSON.isNull : JSON → Bool
  | .null => true
  | _ => false

/-- The target suffix the script matches `plugin_path` against. -/
def targetSuffix : String := "reafir_standalone.dll"

/-- Python `obj.get("plugin_path", "").endswith("reafir_standalone.dll")`:
an absent key falls back to `""`; a present string is suffix-tested; any
present non-string value raises `AttributeError` (no `endswith` attribute). -/
def pluginPathCheck (fields : List (String × JSON)) : Except String Bool :=
  match lookupField fields "plugin_path" with
  | none => .ok (pyEndsWith "" targetSuffix)
  | some (.str s) => .ok (pyEndsWith s targetSuffix)
  | some _ => .error "AttributeError"

mutual

/-- `find_chunk_data_in_json(obj, found)` from the source: on a dict, test
`plugin_path`, append a present non-null `chunk_data` to `found`, then recurse
into every value in order; on a list, recurse into every element in order;
scalars are left alone. The accumulator threads the Python list mutation. -/
def findAux : JSON → List JSON → Except String (List JSON)
  | .obj fields, found =>
      match pluginPathCheck fields with
      | .error e => .error e
      | .ok matched =>
          let found1 :=
            if matched then
              match lookupField fields "chunk_data" with
              | some chunk => if chunk.isNull then found else found ++ [chunk]
              | none => found
            else found
          findFields fields found1
  | .arr elems, found => findList elems found
  | .null, found => .ok found
  | .bool _, found => .ok found
  | .num _, found => .ok found
  | .str _, found => .ok found

/-- `for v in obj.values(): find_chunk_data_in_json(v, found)` — dict values in
insertion order. -/
def findFields : List (String × JSON) → List JSON → Except String (List JSON)
  | [], found => .ok found
  | (_, v) :: rest, found =>
      match findAux v found with
      | .error e => .error e
      | .ok found1 => findFields rest found1

/-- `for v in obj: find_chunk_data_in_json(v, found)` — list elements in order. -/
def findList : List JSON → List JSON → Except String (List JSON)
  | [], found => .ok found
  | v :: rest, found =>
      match findAux v found with
      | .error e => .error e
      | .ok found1 => findList rest found1

end

/-- Top-level call `find_chunk_data_in_json(data)`: the default `found=None`
starts a fresh empty list. -/
def find_chunk_data_in_json (obj : JSON) : Except String (List JSON) :=
  findAux obj []

/-! ### Specification-side characterisation of the tree search -/

/-- Does this mapping's `plugin_path` hold a string ending in the target
suffix? (The error-free rendering of `pluginPathCheck`.) -/
def pluginMatches (fields : List (String × JSON)) : Bool :=
  match lookupField fields "plugin_path" with
  | some (.str s) => pyEndsWith s targetSuffix
  | _ => false

/-- Is this mapping's `plugin_path`, when present, a string? Exactly the
condition under which `pluginPathCheck` does not raise. -/
def pluginWellTyped (fields : List (String × JSON)) : Bool :=
  match lookupField fields "plugin_path" with
  | none => true
  | some (.str _) => true
  | some _ => false

mutual

/-- Every mapping in the document has a string (or absent) `plugin_path`. -/
def wellTyped : JSON → Bool
  | .obj fields => pluginWellTyped fields && wellTypedFields fields
  | .arr elems => wellTypedList elems
  | .null => true
  | .bool _ => true
  | .num _ => true
  | .str _ => true

def wellTypedFields : List (String × JSON) → Bool
  | [] => true
  | (_, v) :: rest => wellTyped v && wellTypedFields rest

def wellTypedList : List JSON → Bool
  | [] => true
  | v :: rest => wellTyped v && wellTypedList rest

end

/-- The `chunk_data` payload the search would take from a matching mapping:
`none` when the field is absent or null, otherwise the raw value. -/
def chunkOfFields (fields : List (String × JSON)) : Option JSON :=
  match lookupField fields "chunk_data" with
  | some chunk => if chunk.isNull then none else some chunk
  | none => none

mutual

/-- Depth-first pre-order list of the field lists of all sub-mappings whose
`plugin_path` matches the target suffix: a matching mapping is listed before
its descendants, object values and array elements in their natural order. -/
def matchedMaps : JSON → List (List (String × JSON))
  | .obj fields => (if pluginMatches fields then [fields] else []) ++ matchedMapsFields fields
  | .arr elems => matchedMapsList elems
  | .null => []
  | .bool _ => []
  | .num _ => []
  | .str _ => []

def matchedMapsFields : List (String × JSON) → List (List (String × JSON))
  | [] => []
  | (_, v) :: rest => matchedMaps v ++ matchedMapsFields rest

def matchedMapsList : List JSON → List (List (String × JSON))
  | [] => []
  | v :: rest => matchedMaps v ++ matchedMapsList rest

end

/-- The Match Set in traversal order: the present, non-null `chunk_data` of
each matching mapping, in pre-order. -/
def chunks (j : JSON) : List JSON :=
  (matchedMaps j).filterMap chunkOfFields

/-! ### The tree search computes the pre-order Match Set -/

theorem pluginPathCheck_of_wellTyped (fields : List (String × JSON))
    (h : pluginWellTyped fields = true) :
    pluginPathCheck fields = .ok (pluginMatches fields) := by
  unfold pluginPathCheck pluginMatches
  unfold pluginWellTyped at h
  cases hl : lookupField fields "plugin_path" with
  | none =>
      have : pyEndsWith "" targetSuffix = false := rfl
      simp [this]
  | some v => cases v <;> simp_all

theorem appendChunk_eq (fields : List (String × JSON)) (found : List JSON) :
    (if pluginMatches fields then
        match lookupField fields "chunk_data" with
        | some chunk => if chunk.isNull then found else found ++ [chunk]
        | none => found
      else found)
    = found ++ (if pluginMatches fields then (chunkOfFields fields).toList else []) := by
  unfold chunkOfFields
  cases pluginMatches fields
  · simp
  · cases lookupField fields "chunk_data" with
    | none => simp
    | some chunk => cases hnull : chunk.isNull <;> simp [hnull]

mutual

theorem findAux_ok : ∀ (j : JSON) (found : List JSON), wellTyped j = true →
    findAux j found = .ok (found ++ chunks j)
  | .null, found, _ => by simp [findAux, chunks, matchedMaps]
  | .bool b, found, _ => by simp [findAux, chunks, matchedMaps]
  | .num n, found, _ => by simp [findAux, chunks, matchedMaps]
  | .str s, found, _ => by simp [findAux, chunks, matchedMaps]
  | .arr elems, found, h => by
      have h1 : wellTypedList elems = true := by simpa [wellTyped] using h
      simpa [findAux, chunks, matchedMaps] using findList_ok elems found h1
  | .obj fields, found, h => by
      have h1 : pluginWellTyped fields = true := by
        simp [wellTyped, Bool.and_eq_true] at h; exact h.1
      have h2 : wellTypedFields fields = true := by
        simp [wellTyped, Bool.and_eq_true] at h; exact h.2
      have hff := findFields_ok fields
          (found ++ (if pluginMatches fields then (chunkOfFields fields).toList else [])) h2
      simp only [findAux, pluginPathCheck_of_wellTyped fields h1, appendChunk_eq, hff,
        chunks, matchedMaps, List.filterMap_append, List.append_assoc]
      cases pluginMatches fields
      · simp [Option.toList, chunkOfFields]
      · cases hl : lookupField fields "chunk_data" with
        | none => simp [List.filterMap_cons, chunkOfFields, hl]
        | some chunk =>
            cases hn : chunk.isNull <;>
              simp [List.filterMap_cons, chunkOfFields, hl, hn]
  termination_by j _ _ => sizeOf j

theorem findFields_ok : ∀ (fields : List (String × JSON)) (found : List JSON),
    wellTypedFields fields = true →
    findFields fields found = .ok (found ++ (matchedMapsFields fields).filterMap chunkOfFields)
  | [], found, _ => by simp [findFields, matchedMapsFields]
  | (k, v) :: rest, found, h => by
      have hv : wellTyped v = true := by
        simp [wellTypedFields, Bool.and_eq_true] at h; exact h.1
      have hr : wellTypedFields rest = true := by
        simp [wellTypedFields, Bool.and_eq_true] at h; exact h.2
      have ih1 := findAux_ok v found hv
      have ih2 := findFields_ok rest (found ++ chunks v) hr
      simp only [chunks] at ih1 ih2
      simp [findFields, ih1, ih2, matchedMapsFields, List.filterMap_append, chunks,
        List.append_assoc]
  termination_by fields _ _ => sizeOf fields

theorem findList_ok : ∀ (elems : List JSON) (found : List JSON),
    wellTypedList elems = true →
    findList elems found = .ok (found ++ (matchedMapsList elems).filterMap chunkOfFields)
  | [], found, _ => by simp [findList, matchedMapsList]
  | v :: rest, found, h => by
      have hv : wellTyped v = true := by
        simp [wellTypedList, Bool.and_eq_true] at h; exact h.1
      have hr : wellTypedList rest = true := by
        simp [wellTypedList, Bool.and_eq_true] at h; exact h.2
      have ih1 := findAux_ok v found hv
      have ih2 := findList_ok rest (found ++ chunks v) hr
      simp only [chunks] at ih1 ih2
      simp [findList, ih1, ih2, matchedMapsList, List.filterMap_append, chunks,
        List.append_assoc]
  termination_by elems _ _ => sizeOf elems

end

/-- On a well-typed document the search succeeds and returns exactly the
pre-order Match Set. -/
theorem find_eq_chunks (doc : JSON) (h : wellTyped doc = true) :
    find_chunk_data_in_json doc = .ok (chunks doc) := by
  simpa [find_chunk_data_in_json] using findAux_ok doc [] h

/-! ### Driver: copy-or-warn policy on the Match Set (`main`, lines 134-140) -/

/-- What `main` does with the Match Set after the search. -/
inductive DriverAction where
  | copy (v : JSON)
  | warnNoChunk
  | warnMultiple

/-- `if len(chunk_datas) == 1: pyperclip.copy(chunk_datas[0]) elif len(...) == 0:
warn "No chunk_data found" else: warn "Multiple chunk_data entries found"`. -/
def driverDecision : List JSON → DriverAction
  | [c] => .copy c
  | [] => .warnNoChunk
  | _ :: _ :: _ => .warnMultiple

/-! ### Duration Formatter (`format_duration_long`) -/

/-- The fixed unit list of `format_duration_long`: suffix and size in
nanoseconds, largest first. -/
def units : List (String × Nat) :=
  [("y", 365 * 24 * 60 * 60 * 1000000000),
   ("mo", 30 * 24 * 60 * 60 * 1000000000),
   ("d", 24 * 60 * 60 * 1000000000),
   ("h", 60 * 60 * 1000000000),
   ("m", 60 * 1000000000),
   ("s", 1000000000),
   ("ms", 1000000),
   ("us", 1000),
   ("ns", 1)]

/-- Python `int(x)` on a real value: truncation toward zero. -/
def pyTrunc (q : ℚ) : Int :=
  if 0 ≤ q then ⌊q⌋ else ⌈q⌉

/-- The `for name, factor in units` loop: `value, ns = divmod(ns, factor)`
(Python floor division), append `f'{value}{name}'` when `value` is non-zero,
and break as soon as two parts have accumulated. -/
def formatLoop : Int → List (String × Nat) → List String → List String
  | _, [], parts => parts
  | ns, (name, factor) :: rest, parts =>
      let value := Int.fdiv ns (factor : Int)
      let ns1 := Int.fmod ns (factor : Int)
      let parts1 := if value ≠ 0 then parts ++ [Int.repr value ++ name] else parts
      if parts1.length = 2 then parts1 else formatLoop ns1 rest parts1

/-- `format_duration_long(duration_seconds)`: convert to integer nanoseconds
(`int(duration_seconds * 1_000_000_000)`; the Python float is modelled as an
exact rational), run the unit loop, and render `"0s"` when no part is
non-zero, else the concatenation `"".join(parts)`. -/
def format_duration_long (duration_seconds : ℚ) : String :=
  let ns : Int := pyTrunc (duration_seconds * 1000000000)
  let parts := formatLoop ns units []
  if parts = [] then "0s" else String.join parts

/-- Spec side: the full divmod decomposition of `ns` over the unit list, with
one rendered part per non-zero unit value and no early stop. -/
def allParts : Int → List (String × Nat) → List String
  | _, [] => []
  | ns, (name, factor) :: rest =>
      let value := Int.fdiv ns (factor : Int)
      let ns1 := Int.fmod ns (factor : Int)
      (if value ≠ 0 then [Int.repr value ++ name] else []) ++ allParts ns1 rest

/-- Modelled from the spec: "render it using the two largest non-zero units
from a fixed ordered list ... concatenated with no separator. If every unit
value is zero, render `\"0s\"`." -/
def specTwoLargestUnits (ns : Int) : String :=
  let parts := (allParts ns units).take 2
  if parts = [] then "0s" else String.join parts

/-- The early-break unit loop computes the first two parts of the full
decomposition, past any partial accumulator shorter than two parts. -/
theorem formatLoop_eq_take_two : ∀ (us : List (String × Nat)) (ns : Int)
    (parts : List String), parts.length < 2 →
    formatLoop ns us parts = (parts ++ allParts ns us).take 2
  | [], ns, parts, h => by
      simp [formatLoop, allParts, List.take_of_length_le (Nat.le_of_lt h)]
  | (name, factor) :: rest, ns, parts, h => by
      simp only [formatLoop, allParts]
      by_cases hv : Int.fdiv ns (factor : Int) ≠ 0
      · simp only [if_pos hv]
        by_cases hlen : (parts ++ [Int.repr (Int.fdiv ns (factor : Int)) ++ name]).length = 2
        · rw [if_pos hlen, ← List.append_assoc,
            List.take_append_of_le_length (le_of_eq hlen.symm),
            List.take_of_length_le (le_of_eq hlen)]
        · have hlt : (parts ++ [Int.repr (Int.fdiv ns (factor : Int)) ++ name]).length < 2 := by
            rw [List.length_append] at hlen ⊢
            simp only [List.length_singleton] at hlen ⊢
            omega
          rw [if_neg hlen, formatLoop_eq_take_two rest _ _ hlt, List.append_assoc]
      · have hlen : ¬ (parts.length = 2) := by omega
        simp only [if_neg hv, if_neg hlen, List.nil_append]
        exact formatLoop_eq_take_two rest _ _ h

/-! ### Log Retention Enforcer (`enforce_max_folder_size`) -/

/-- The filesystem metadata the enforcer reads for one file, plus whether an
`unlink` on it would succeed (`deletable = false` models `oldest.unlink()`
raising, the `except` branch). Modification times are modelled as naturals;
only their order matters. -/
structure LogFile where
  name : String
  mtime : Nat
  size : Nat
  deletable : Bool
deriving DecidableEq

/-- Substring test over character lists. -/
def hasSub (needle : List Char) : List Char → Bool
  | [] => needle.isEmpty
  | c :: rest => needle.isPrefixOf (c :: rest) || hasSub needle rest

/-- Does a file name match the glob `*.log*`, i.e. contain `".log"`? -/
def matchesLogPattern (name : String) : Bool :=
  hasSub ".log".data name.data

/-- Stable insertion of a file into a list sorted by ascending mtime; a file
goes before later-listed files with the same mtime. -/
def insertByMtime (f : LogFile) : List LogFile → List LogFile
  | [] => [f]
  | g :: rest => if f.mtime ≤ g.mtime then f :: g :: rest else g :: insertByMtime f rest

/-- `sorted(files, key=lambda f: f.stat().st_mtime)` (a stable ascending sort). -/
def sortByMtime : List LogFile → List LogFile
  | [] => []
  | f :: rest => insertByMtime f (sortByMtime rest)

/-- Total size in bytes of a list of files. -/
def sizeSum (files : List LogFile) : Int :=
  (files.map (fun f => (f.size : Int))).sum

/-- The `while total_size > max_bytes and files:` loop. Returns the files left
on disk: an undeletable head raises inside the `try`, so `total_size -= size`
is skipped and the loop continues with the total unchanged; a deletable head
is unlinked and its size subtracted. Files never reached remain. -/
def pruneLoop (maxBytes : Int) : Int → List LogFile → List LogFile
  | _, [] => []
  | total, oldest :: rest =>
      if total > maxBytes then
        if oldest.deletable then pruneLoop maxBytes (total - (oldest.size : Int)) rest
        else oldest :: pruneLoop maxBytes total rest
      else oldest :: rest

/-- `enforce_max_folder_size(log_dir, max_bytes)`, observed through the
`*.log*` files remaining in the directory (in mtime order): `None` disables
enforcement; otherwise the matching files are sorted by mtime, their sizes
summed, and the deletion loop runs. -/
def enforce_max_folder_size (dirFiles : List LogFile) (max_bytes : Option Int) :
    List LogFile :=
  match max_bytes with
  | none => sortByMtime (dirFiles.filter (fun f => matchesLogPattern f.name))
  | some mb =>
      let files := sortByMtime (dirFiles.filter (fun f => matchesLogPattern f.name))
      pruneLoop mb (sizeSum files) files

/-- Modelled from the spec: the deletion loop as claim C7 describes it, where
after a failed deletion "the running total is decremented by the failed
file's size" and the loop continues. Identical to `pruneLoop` except in the
undeletable branch. -/
def pruneLoopClaimC7 (maxBytes : Int) : Int → List LogFile → List LogFile
  | _, [] => []
  | total, oldest :: rest =>
      if total > maxBytes then
        if oldest.deletable then pruneLoopClaimC7 maxBytes (total - (oldest.size : Int)) rest
        else oldest :: pruneLoopClaimC7 maxBytes (total - (oldest.size : Int)) rest
      else oldest :: rest

/-- Modelled from the spec: `enforce_max_folder_size` with claim C7's
accounting-on-failure, for comparison with the code's behaviour. -/
def enforceClaimC7 (dirFiles : List LogFile) (max_bytes : Option Int) : List LogFile :=
  match max_bytes with
  | none => sortByMtime (dirFiles.filter (fun f => matchesLogPattern f.name))
  | some mb =>
      let files := sortByMtime (dirFiles.filter (fun f => matchesLogPattern f.name))
      pruneLoopClaimC7 mb (sizeSum files) files

/-! ### File Selector (`main`, lines 108-121) -/

/-- Python whitespace stripped by `int(str)` (ASCII range). -/
def isPySpace (c : Char) : Bool :=
  c = ' ' || c = '\t' || c = '\n' || c = '\r' || c = '\x0b' || c = '\x0c'

/-- Strip leading and trailing whitespace. -/
def stripPy (cs : List Char) : List Char :=
  ((cs.dropWhile isPySpace).reverse.dropWhile isPySpace).reverse

/-- Digit run with optional single underscores between digits, as Python's
`int()` accepts; `lastDigit` records whether the previous character was a
digit (an underscore must be surrounded by digits, and the run must end in
one). -/
def parseDigits : Nat → Bool → List Char → Option Nat
  | acc, lastDigit, [] => if lastDigit then some acc else none
  | acc, lastDigit, c :: rest =>
      if c.isDigit then parseDigits (acc * 10 + (c.toNat - '0'.toNat)) true rest
      else if c = '_' then (if lastDigit then parseDigits acc false rest else none)
      else none

/-- Python `int(s)` on console input (ASCII model): strip whitespace, optional
sign, then a digit run; `none` is the `ValueError` branch. -/
def parsePyInt (s : String) : Option Int :=
  match stripPy s.data with
  | '+' :: rest => (parseDigits 0 false rest).map (fun n => (n : Int))
  | '-' :: rest => (parseDigits 0 false rest).map (fun n => -(n : Int))
  | cs => (parseDigits 0 false cs).map (fun n => (n : Int))

/-- The `while True` prompt loop over `n` candidates, fed the successive
console inputs: a `ValueError` or an out-of-range number logs an error and
re-prompts; a valid `1 <= selection <= n` breaks with that selection.
`none` means the input sequence ran out before a valid selection. -/
def selectLoop (n : Nat) : List String → Option Nat
  | [] => none
  | inp :: rest =>
      match parsePyInt inp with
      | none => selectLoop n rest
      | some sel =>
          if 1 ≤ sel ∧ sel ≤ (n : Int) then some sel.toNat else selectLoop n rest

/-- The selection policy of `main`: a sole candidate is selected automatically
(no prompt); otherwise the prompt loop picks `json_files[selection - 1]`. -/
def selectFile (files : List String) (inputs : List String) : Option String :=
  if files.length = 1 then files.head?
  else
    match selectLoop files.length inputs with
    | some sel => files.get? (sel - 1)
    | none => none

/-! ### Generic list lemmas for the Match Set characterisation -/

theorem filterMap_eq_on_filter {α β : Type} (f : α → Option β) : ∀ l : List α,
    l.filterMap f = (l.filter fun x => (f x).isSome).filterMap f
  | [] => rfl
  | x :: l => by
      cases hf : f x <;>
        simp [List.filterMap_cons, List.filter_cons, hf, filterMap_eq_on_filter f l]

theorem length_filterMap_eq_length_filter {α β : Type} (f : α → Option β) : ∀ l : List α,
    (l.filterMap f).length = (l.filter fun x => (f x).isSome).length
  | [] => rfl
  | x :: l => by
      cases hf : f x <;>
        simp [List.filterMap_cons, List.filter_cons, hf, length_filterMap_eq_length_filter f l]

/-! ### Example documents -/

/-- A document with exactly one qualifying mapping (a sibling mapping has a
non-matching `plugin_path`). -/
def docC1 : JSON :=
  .obj [("sources", .arr
    [.obj [("plugin_path", .str "C:/vst/reafir_standalone.dll"),
           ("chunk_data", .str "PAYLOAD")],
     .obj [("plugin_path", .str "C:/vst/other.dll"),
           ("chunk_data", .str "IGNORED")]])]

/-- The spec's traversal-order example: `{"a": {...X}, "b": [{...Y}]}`. -/
def docC2 : JSON :=
  .obj [("a", .obj [("plugin_path", .str "C:/plug/reafir_standalone.dll"),
                    ("chunk_data", .str "X")]),
        ("b", .arr [.obj [("plugin_path", .str "C:/plug/reafir_standalone.dll"),
                          ("chunk_data", .str "Y")]])]

/-- A qualifying mapping nested inside a qualifying mapping: the outer
`chunk_data` must be appended before the walk descends. -/
def docC2nested : JSON :=
  .obj [("plugin_path", .str "C:/plug/reafir_standalone.dll"),
        ("chunk_data", .str "OUTER"),
        ("inner", .obj [("plugin_path", .str "C:/plug/reafir_standalone.dll"),
                        ("chunk_data", .str "INNER")])]

/-- The spec's edge-case example: matching `plugin_path`, no `chunk_data`. -/
def docC3absent : JSON := .obj [("plugin_path", .str "foo/reafir_standalone.dll")]

/-- Matching `plugin_path` with a null `chunk_data`. -/
def docC3null : JSON :=
  .obj [("plugin_path", .str "foo/reafir_standalone.dll"), ("chunk_data", .null)]

/-- A `plugin_path` differing from the target suffix only in letter case. -/
def docC3case : JSON :=
  .obj [("plugin_path", .str "foo/Reafir_standalone.DLL"), ("chunk_data", .str "Z")]

/-- The same mapping as `docC3case` with the suffix in the correct case. -/
def docC3lower : JSON :=
  .obj [("plugin_path", .str "foo/reafir_standalone.dll"), ("chunk_data", .str "Z")]

/-- A single qualifying mapping, for exercising the driver policy. -/
def docC4 : JSON :=
  .obj [("plugin_path", .str "reafir_standalone.dll"), ("chunk_data", .str "D")]

/-! ### Claim theorems -/

/-- C1: for every Scene Document containing exactly one mapping whose
`plugin_path` ends with `"reafir_standalone.dll"` and whose `chunk_data` is
present and non-null, the tree search returns a single-element Match Set
whose sole element is that mapping's `chunk_data` value. (Documents are
well-typed: every `plugin_path`, when present, holds a string, so the
search does not raise.) -/
theorem find_unique_match (doc : JSON) (fields : List (String × JSON)) (c : JSON)
    (hwt : wellTyped doc = true)
    (hone : (matchedMaps doc).filter (fun m => (chunkOfFields m).isSome) = [fields])
    (hc : chunkOfFields fields = some c) :
    find_chunk_data_in_json doc = .ok [c] := by
  rw [find_eq_chunks doc hwt, chunks, filterMap_eq_on_filter, hone]
  simp [List.filterMap_cons, hc]

theorem find_unique_match_witness :
    wellTyped docC1 = true ∧
    (matchedMaps docC1).filter (fun m => (chunkOfFields m).isSome)
      = [[("plugin_path", JSON.str "C:/vst/reafir_standalone.dll"),
          ("chunk_data", JSON.str "PAYLOAD")]] ∧
    find_chunk_data_in_json docC1 = .ok [.str "PAYLOAD"] :=
  ⟨rfl, rfl,
    find_unique_match docC1
      [("plugin_path", JSON.str "C:/vst/reafir_standalone.dll"),
       ("chunk_data", JSON.str "PAYLOAD")]
      (.str "PAYLOAD") rfl rfl rfl⟩

/-- C2: the tree search visits the document depth-first in pre-order — on a
well-typed document it returns exactly `chunks doc`, the Match Set built by
appending a matching mapping's `chunk_data` before descending into its
values in natural order (see `matchedMaps`); a document with N qualifying
mappings yields N elements; on the spec's example the Match Set is
`["X", "Y"]`, and a qualifying mapping nested in a qualifying mapping
contributes after its parent. -/
theorem find_preorder_traversal :
    (∀ doc : JSON, wellTyped doc = true →
        find_chunk_data_in_json doc = .ok (chunks doc)) ∧
    (∀ doc : JSON, wellTyped doc = true →
        (chunks doc).length
          = ((matchedMaps doc).filter (fun m => (chunkOfFields m).isSome)).length) ∧
    find_chunk_data_in_json docC2 = .ok [.str "X", .str "Y"] ∧
    find_chunk_data_in_json docC2nested = .ok [.str "OUTER", .str "INNER"] := by
  refine ⟨find_eq_chunks, fun doc _ => ?_, rfl, rfl⟩
  rw [chunks]
  exact length_filterMap_eq_length_filter chunkOfFields (matchedMaps doc)

theorem find_preorder_traversal_witness :
    wellTyped docC2 = true ∧
    find_chunk_data_in_json docC2 = .ok (chunks docC2) :=
  ⟨rfl, find_preorder_traversal.1 docC2 rfl⟩

/-- C3: a mapping whose `plugin_path` matches but whose `chunk_data` is
absent or null contributes nothing and raises no error: a well-typed
document with zero qualifying mappings yields `.ok []`; in particular
`{"plugin_path": "foo/reafir_standalone.dll"}` alone, or with a null
`chunk_data`, yields the empty Match Set; matching is case-sensitive (the
same path with capitals does not match, the lower-case one does). -/
theorem find_no_qualifying (doc : JSON) (hwt : wellTyped doc = true)
    (hzero : (matchedMaps doc).filter (fun m => (chunkOfFields m).isSome) = []) :
    find_chunk_data_in_json doc = .ok [] ∧
    find_chunk_data_in_json docC3absent = .ok [] ∧
    find_chunk_data_in_json docC3null = .ok [] ∧
    find_chunk_data_in_json docC3case = .ok [] ∧
    find_chunk_data_in_json docC3lower = .ok [.str "Z"] := by
  refine ⟨?_, rfl, rfl, rfl, rfl⟩
  rw [find_eq_chunks doc hwt, chunks, filterMap_eq_on_filter, hzero]
  rfl

theorem find_no_qualifying_witness :
    wellTyped docC3absent = true ∧
    (matchedMaps docC3absent).filter (fun m => (chunkOfFields m).isSome) = [] ∧
    find_chunk_data_in_json docC3absent = .ok [] :=
  ⟨rfl, rfl, (find_no_qualifying docC3absent rfl rfl).1⟩

/-- C4: for every Match Set the search produces, the driver writes to the
clipboard iff the Match Set has exactly one element, and then writes exactly
that element; an empty or multi-element Match Set only warns. -/
theorem driver_copy_policy (doc : JSON) (ms : List JSON)
    (_hms : find_chunk_data_in_json doc = .ok ms) :
    ((∃ c, driverDecision ms = .copy c) ↔ ms.length = 1) ∧
    (∀ c, ms = [c] → driverDecision ms = .copy c) ∧
    (ms = [] → driverDecision ms = .warnNoChunk) ∧
    (2 ≤ ms.length → driverDecision ms = .warnMultiple) := by
  clear _hms
  rcases ms with _ | ⟨c0, _ | ⟨c1, rest⟩⟩
  · refine ⟨⟨fun ⟨c, hc⟩ => ?_, fun h => by simp at h⟩,
      fun c h => by simp at h, fun _ => rfl, fun h => by simp at h⟩
    simp [driverDecision] at hc
  · refine ⟨⟨fun _ => rfl, fun _ => ⟨c0, rfl⟩⟩, fun c h => ?_,
      fun h => by simp at h, fun h => by simp at h⟩
    simp at h
    rw [h]
    rfl
  · refine ⟨⟨fun ⟨c, hc⟩ => ?_, fun h => ?_⟩, fun c h => by simp at h,
      fun h => by simp at h, fun _ => rfl⟩
    · simp [driverDecision] at hc
    · simp at h

theorem driver_copy_policy_witness :
    find_chunk_data_in_json docC4 = .ok [.str "D"] ∧
    driverDecision [JSON.str "D"] = .copy (.str "D") :=
  ⟨rfl, (driver_copy_policy docC4 [JSON.str "D"] rfl).2.1 (.str "D") rfl⟩

/-- C5: for every duration in (fractional) seconds, `format_duration_long`
renders exactly the two largest non-zero units of the fixed ordered unit
list, concatenated with no separator, and `"0s"` when every unit value is
zero; in particular `format(0) = "0s"`, `format(90) = "1m30s"` and
`format(3661) = "1h1m"`. -/
theorem format_duration_two_largest :
    (∀ q : ℚ, format_duration_long q
        = specTwoLargestUnits (pyTrunc (q * 1000000000))) ∧
    format_duration_long 0 = "0s" ∧
    format_duration_long 90 = "1m30s" ∧
    format_duration_long 3661 = "1h1m" := by
  have key : ∀ ns : Int, formatLoop ns units [] = (allParts ns units).take 2 :=
    fun ns => by simpa using formatLoop_eq_take_two units ns [] (by simp)
  refine ⟨fun q => ?_, ?_, ?_, ?_⟩
  · simp only [format_duration_long, specTwoLargestUnits, key]
  · have h : pyTrunc ((0 : ℚ) * 1000000000) = 0 := by norm_num [pyTrunc]
    simp only [format_duration_long, h]
    decide
  · have h : pyTrunc ((90 : ℚ) * 1000000000) = 90000000000 := by norm_num [pyTrunc]
    simp only [format_duration_long, h]
    decide
  · have h : pyTrunc ((3661 : ℚ) * 1000000000) = 3661000000000 := by
      norm_num [pyTrunc]
    simp only [format_duration_long, h]
    decide

/-! ### Log retention: supporting lemmas -/

theorem sizeSum_cons (f : LogFile) (l : List LogFile) :
    sizeSum (f :: l) = (f.size : Int) + sizeSum l := by
  simp [sizeSum]

theorem mem_insertByMtime {g f : LogFile} : ∀ {l : List LogFile},
    g ∈ insertByMtime f l → g = f ∨ g ∈ l
  | [] => by simp [insertByMtime]
  | x :: rest => by
      intro h
      simp only [insertByMtime] at h
      split at h
      · rcases List.mem_cons.mp h with h | h
        · exact Or.inl h
        · exact Or.inr h
      · rcases List.mem_cons.mp h with h | h
        · exact Or.inr (h ▸ List.mem_cons_self x rest)
        · rcases mem_insertByMtime h with h | h
          · exact Or.inl h
          · exact Or.inr (List.mem_cons_of_mem x h)

theorem mem_sortByMtime {g : LogFile} : ∀ {l : List LogFile},
    g ∈ sortByMtime l → g ∈ l
  | [] => by simp [sortByMtime]
  | f :: rest => fun h => by
      rcases mem_insertByMtime h with h | h
      · rw [h]
        exact List.mem_cons_self f rest
      · exact List.mem_cons_of_mem f (mem_sortByMtime h)

/-- When every file can be deleted, the loop drops a prefix of the
mtime-sorted list: it stops at the first suffix whose total size is within
the budget (and the suffix one step earlier, when there is one, is still
over budget). -/
theorem pruneLoop_drop (mb : Int) (hmb : 0 ≤ mb) : ∀ (files : List LogFile)
    (total : Int), total = sizeSum files → (∀ f ∈ files, f.deletable = true) →
    ∃ k, pruneLoop mb total files = files.drop k ∧
      sizeSum (files.drop k) ≤ mb ∧ (k = 0 ∨ mb < sizeSum (files.drop (k - 1)))
  | [], total, htot, _ => by
      refine ⟨0, by simp [pruneLoop], ?_, Or.inl rfl⟩
      simpa [sizeSum] using hmb
  | f :: rest, total, htot, hdel => by
      by_cases hgt : total > mb
      · have hfd : f.deletable = true := hdel f (List.mem_cons_self f rest)
        have htot1 : total - (f.size : Int) = sizeSum rest := by
          rw [htot, sizeSum_cons]
          ring
        obtain ⟨k, hk, hle, hmin⟩ := pruneLoop_drop mb hmb rest (total - (f.size : Int))
          htot1 (fun g hg => hdel g (List.mem_cons_of_mem f hg))
        refine ⟨k + 1, ?_, ?_, Or.inr ?_⟩
        · simp [pruneLoop, hgt, hfd, hk, List.drop_succ_cons]
        · simpa [List.drop_succ_cons] using hle
        · rw [Nat.add_sub_cancel]
          cases k with
          | zero =>
              simpa [htot] using hgt
          | succ k1 =>
              rcases hmin with hmin | hmin
              · exact absurd hmin (Nat.succ_ne_zero k1)
              · simpa [List.drop_succ_cons] using hmin
      · refine ⟨0, ?_, ?_, Or.inl rfl⟩
        · simp [pruneLoop, hgt]
        · rw [List.drop_zero, ← htot]
          omega

/-- The sizes-[10,20,30] example, oldest first, all deletable. -/
def exC6 : List LogFile :=
  [⟨"a.log", 1, 10, true⟩, ⟨"b.log", 2, 20, true⟩, ⟨"c.log", 3, 30, true⟩]

/-- C6 counterexample: with files sized [10, 20, 30] (oldest first) and a
25-byte budget the code deletes ALL THREE files — after the two oldest go,
the remaining total is 30 > 25, so the loop deletes the newest too. The
claim's "the newest-by-mtime file is preserved" is false at this input. -/
theorem enforce_c6_counterexample :
    enforce_max_folder_size exC6 (some 25) = [] ∧
    enforce_max_folder_size exC6 (some 25) ≠ [⟨"c.log", 3, 30, true⟩] :=
  ⟨by decide, by decide⟩

/-- C6 amended: the enforcer deletes matching files oldest-modification-time
first until the total size of the remaining files is at or under the limit
(so it stops at the first affordable suffix of the mtime-sorted list); for
sizes [10, 20, 30] a 25-byte budget deletes all three files (the newest
alone still exceeds it), while a 30-byte budget deletes the two oldest and
preserves the newest. -/
theorem enforce_retention (dirFiles : List LogFile) (mb : Int) (hmb : 0 ≤ mb)
    (hdel : ∀ f ∈ dirFiles, f.deletable = true) :
    (∃ k, enforce_max_folder_size dirFiles (some mb)
        = (sortByMtime (dirFiles.filter (fun f => matchesLogPattern f.name))).drop k ∧
      sizeSum (enforce_max_folder_size dirFiles (some mb)) ≤ mb ∧
      (k = 0 ∨ mb < sizeSum
        ((sortByMtime (dirFiles.filter (fun f => matchesLogPattern f.name))).drop
          (k - 1)))) ∧
    enforce_max_folder_size exC6 (some 25) = [] ∧
    enforce_max_folder_size exC6 (some 30) = [⟨"c.log", 3, 30, true⟩] := by
  refine ⟨?_, by decide, by decide⟩
  have hdel1 : ∀ f ∈ sortByMtime (dirFiles.filter (fun f => matchesLogPattern f.name)),
      f.deletable = true :=
    fun f hf => hdel f (List.mem_of_mem_filter (mem_sortByMtime hf))
  obtain ⟨k, hk, hle, hmin⟩ := pruneLoop_drop mb hmb
    (sortByMtime (dirFiles.filter (fun f => matchesLogPattern f.name)))
    (sizeSum (sortByMtime (dirFiles.filter (fun f => matchesLogPattern f.name))))
    rfl hdel1
  refine ⟨k, ?_, ?_, hmin⟩
  · simpa [enforce_max_folder_size] using hk
  · simpa [enforce_max_folder_size, hk] using hle

theorem enforce_retention_witness :
    (0 : Int) ≤ 30 ∧
    (∀ f ∈ exC6, f.deletable = true) ∧
    (∃ k, enforce_max_folder_size exC6 (some 30)
        = (sortByMtime (exC6.filter (fun f => matchesLogPattern f.name))).drop k ∧
      sizeSum (enforce_max_folder_size exC6 (some 30)) ≤ 30 ∧
      (k = 0 ∨ 30 < sizeSum
        ((sortByMtime (exC6.filter (fun f => matchesLogPattern f.name))).drop
          (k - 1)))) :=
  ⟨by decide, by decide, (enforce_retention exC6 30 (by decide) (by decide)).1⟩

/-- Oldest file undeletable (size 30), then two deletable files (size 10
each); budget 25. -/
def exC7 : List LogFile :=
  [⟨"a.log", 1, 30, false⟩, ⟨"b.log", 2, 10, true⟩, ⟨"c.log", 3, 10, true⟩]

/-- C7 counterexample: when deleting the oldest file fails, the code SKIPS
`total_size -= size` (the subtraction sits after `unlink()` inside the
`try`), so the running total is not decremented. Under the claim's
accounting the failed 30-byte file would bring the total to 20 ≤ 25 and
both newer files would survive; the code instead keeps the total at 50 and
deletes both newer files. -/
theorem enforce_c7_counterexample :
    enforce_max_folder_size exC7 (some 25) = [⟨"a.log", 1, 30, false⟩] ∧
    enforceClaimC7 exC7 (some 25)
      = [⟨"a.log", 1, 30, false⟩, ⟨"b.log", 2, 10, true⟩, ⟨"c.log", 3, 10, true⟩] ∧
    enforce_max_folder_size exC7 (some 25) ≠ enforceClaimC7 exC7 (some 25) :=
  ⟨by decide, by decide, by decide⟩

/-- C7 amended: when deleting an individual file fails, the failure is
skipped rather than aborting — the file stays on disk and the loop continues
to the next-oldest file — but the running total is left UNCHANGED (the
failed file's size is not subtracted), so the failed file's bytes still
count against the budget and later files keep being deleted. -/
theorem enforce_failure_skipped :
    (∀ (mb total : Int) (f : LogFile) (rest : List LogFile),
      f.deletable = false → total > mb →
      pruneLoop mb total (f :: rest) = f :: pruneLoop mb total rest) ∧
    enforce_max_folder_size exC7 (some 25) = [⟨"a.log", 1, 30, false⟩] := by
  refine ⟨fun mb total f rest hdel htot => ?_, by decide⟩
  simp [pruneLoop, htot, hdel]

theorem enforce_failure_skipped_witness :
    (⟨"a.log", 1, 30, false⟩ : LogFile).deletable = false ∧
    (50 : Int) > 25 ∧
    pruneLoop 25 50 [⟨"a.log", 1, 30, false⟩, ⟨"b.log", 2, 10, true⟩]
      = ⟨"a.log", 1, 30, false⟩ :: pruneLoop 25 50 [⟨"b.log", 2, 10, true⟩] :=
  ⟨by decide, by decide,
    enforce_failure_skipped.1 25 50 ⟨"a.log", 1, 30, false⟩
      [⟨"b.log", 2, 10, true⟩] rfl (by decide)⟩

/-! ### File selector: supporting lemma -/

theorem selectLoop_in_range (n : Nat) : ∀ (inputs : List String) (k : Nat),
    selectLoop n inputs = some k → 1 ≤ k ∧ k ≤ n
  | [], k, h => by simp [selectLoop] at h
  | inp :: rest, k, h => by
      cases hp : parsePyInt inp with
      | none =>
          simp only [selectLoop, hp] at h
          exact selectLoop_in_range n rest k h
      | some sel =>
          simp only [selectLoop, hp] at h
          by_cases hr : 1 ≤ sel ∧ sel ≤ (n : Int)
          · rw [if_pos hr] at h
            obtain ⟨h1, h2⟩ := hr
            have hk : sel.toNat = k := by injection h
            omega
          · rw [if_neg hr] at h
            exact selectLoop_in_range n rest k h

/-- C8: with exactly one candidate the selector picks it automatically (no
input consumed); otherwise non-numeric or out-of-range console input is
rejected and the loop just re-prompts on the remaining inputs (never fatal),
any selection the loop accepts is a valid 1-based index, and an accepted
selection `k` picks the k-th listed candidate; with 3 candidates the inputs
`"abc"`, `"5"`, `"2"` end by selecting the second file. -/
theorem selector_policy :
    (∀ (f : String) (inputs : List String), selectFile [f] inputs = some f) ∧
    (∀ (n : Nat) (bad : String) (rest : List String), parsePyInt bad = none →
        selectLoop n (bad :: rest) = selectLoop n rest) ∧
    (∀ (n : Nat) (inp : String) (rest : List String) (sel : Int),
        parsePyInt inp = some sel → ¬(1 ≤ sel ∧ sel ≤ (n : Int)) →
        selectLoop n (inp :: rest) = selectLoop n rest) ∧
    (∀ (n : Nat) (inputs : List String) (k : Nat),
        selectLoop n inputs = some k → 1 ≤ k ∧ k ≤ n) ∧
    (∀ (files inputs : List String) (k : Nat), files.length ≠ 1 →
        selectLoop files.length inputs = some k →
        selectFile files inputs = files.get? (k - 1)) ∧
    selectFile ["a", "b", "c"] ["abc", "5", "2"] = some "b" := by
  refine ⟨fun f inputs => by simp [selectFile], fun n bad rest h => ?_,
    fun n inp rest sel hp hr => ?_, selectLoop_in_range, fun files inputs k h1 h2 => ?_,
    by decide⟩
  · simp [selectLoop, h]
  · simp [selectLoop, hp, hr]
  · simp [selectFile, h1, h2]

theorem selector_policy_witness :
    selectFile ["only.json"] [] = some "only.json" :=
  selector_policy.1 "only.json" []

/-- A well-typed document mixing strings and numbers away from
`plugin_path`. -/
def docC9ok : JSON :=
  .arr [.obj [("plugin_path", .str "a"), ("n", .num 5)], .num 7]

/-- C9: the tree search is total exactly under the precondition that every
present `plugin_path` holds a string (`wellTyped`): then it returns a Match
Set without error; but a mapping whose `plugin_path` holds a number makes
the search raise (`obj.get("plugin_path", "").endswith(...)` on a non-string
raises `AttributeError`). -/
theorem find_total_iff_plugin_paths_strings :
    (∀ doc : JSON, wellTyped doc = true →
        ∃ ms, find_chunk_data_in_json doc = .ok ms) ∧
    find_chunk_data_in_json (.obj [("plugin_path", .num 3)])
      = .error "AttributeError" :=
  ⟨fun doc h => ⟨chunks doc, find_eq_chunks doc h⟩, rfl⟩

theorem find_total_iff_plugin_paths_strings_witness :
    wellTyped docC9ok = true ∧
    (∃ ms, find_chunk_data_in_json docC9ok = .ok ms) :=
  ⟨rfl, find_total_iff_plugin_paths_strings.1 docC9ok rfl⟩

/-- Matching mapping whose `chunk_data` is the empty string. -/
def docC10empty : JSON :=
  .obj [("plugin_path", .str "reafir_standalone.dll"), ("chunk_data", .str "")]

/-- Matching mapping whose `chunk_data` is the number 0. -/
def docC10zero : JSON :=
  .obj [("plugin_path", .str "reafir_standalone.dll"), ("chunk_data", .num 0)]

/-- Matching mapping whose `chunk_data` is the boolean false. -/
def docC10false : JSON :=
  .obj [("plugin_path", .str "reafir_standalone.dll"), ("chunk_data", .bool false)]

/-- Matching mapping whose `chunk_data` is a nested mapping. -/
def docC10nested : JSON :=
  .obj [("plugin_path", .str "reafir_standalone.dll"),
        ("chunk_data", .obj [("k", .arr [.num 1])])]

/-- C10: a matching mapping's `chunk_data` is appended whenever it is
anything but null — the only check is `chunk is not None` — so an empty
string, the number 0, the boolean false, or a nested structure are all
appended unchanged. -/
theorem find_appends_any_non_null_chunk :
    (∀ (fields : List (String × JSON)) (chunk : JSON),
        wellTypedFields fields = true → pluginMatches fields = true →
        lookupField fields "chunk_data" = some chunk → chunk.isNull = false →
        ∃ rest, find_chunk_data_in_json (.obj fields) = .ok (chunk :: rest)) ∧
    find_chunk_data_in_json docC10empty = .ok [.str ""] ∧
    find_chunk_data_in_json docC10zero = .ok [.num 0] ∧
    find_chunk_data_in_json docC10false = .ok [.bool false] ∧
    find_chunk_data_in_json docC10nested = .ok [.obj [("k", .arr [.num 1])]] := by
  refine ⟨fun fields chunk hwf hm hl hn => ?_, rfl, rfl, rfl, rfl⟩
  have hpw : pluginWellTyped fields = true := by
    cases hlp : lookupField fields "plugin_path" with
    | none => simp [pluginMatches, hlp] at hm
    | some v => cases v <;> simp_all [pluginMatches, pluginWellTyped, hlp]
  have hwt : wellTyped (.obj fields) = true := by simp [wellTyped, hpw, hwf]
  rw [find_eq_chunks _ hwt]
  refine ⟨(matchedMapsFields fields).filterMap chunkOfFields, ?_⟩
  have hc : chunkOfFields fields = some chunk := by simp [chunkOfFields, hl, hn]
  simp [chunks, matchedMaps, hm, List.filterMap_cons, hc]

theorem find_appends_any_non_null_chunk_witness :
    wellTypedFields [("plugin_path", JSON.str "reafir_standalone.dll"),
      ("chunk_data", JSON.str "")] = true ∧
    pluginMatches [("plugin_path", JSON.str "reafir_standalone.dll"),
      ("chunk_data", JSON.str "")] = true ∧
    (∃ rest, find_chunk_data_in_json
        (.obj [("plugin_path", JSON.str "reafir_standalone.dll"),
               ("chunk_data", JSON.str "")])
      = .ok (JSON.str "" :: rest)) :=
  ⟨rfl, rfl,
    find_appends_any_non_null_chunk.1
      [("plugin_path", JSON.str "reafir_standalone.dll"),
       ("chunk_data", JSON.str "")]
      (.str "") rfl rfl rfl rfl⟩

end Extract
